import Mathlib

/-
Verification development for the Option-pricing-models repository.

The repository's `src` holds only the Streamlit application
(`streamlit_app.py`); the pricing engine it imports (`option_pricing`:
`BlackScholesModel`, `MonteCarloPricing`, `BinomialTreeModel`) is not part
of the sources available here, so those components are modelled from the
specification (spec.md §3, §4, §7), as marked on each definition.  The
application-level control flow (construction order, the call sequence of
`simulate_prices` and `calculate_option_price`, and the string arguments
passed at the call sites) is embedded from `src/streamlit_app.py` itself.

All arithmetic is embedded over the real numbers ℝ.
-/

open MeasureTheory Set

namespace OptionPricing

/-- Modelled from the spec: the two error kinds of §7 — `InvalidParameter`
(non-positive spot/strike, zero/negative time-to-maturity, negative
volatility, out-of-range risk-neutral probability) and `NotSimulated`
(Monte-Carlo price requested before `simulate_prices`). -/
inductive PricingError where
  | InvalidParameter
  | NotSimulated
deriving DecidableEq

/-- Modelled from the spec: `OptionKind` — closed variant {Call, Put}
(spec §3).  In the source application the corresponding values are the
string literals "Call Option" and "Put Option" (see
`appCallOptionArgument` below). -/
inductive OptionKind where
  | Call
  | Put
deriving DecidableEq

/-- Modelled from the spec: `PricingParameters` — immutable value object
(spec §3) shared by all three models. -/
structure PricingParameters where
  spot_price : ℝ
  strike_price : ℝ
  time_to_maturity_days : ℤ
  risk_free_rate : ℝ
  volatility : ℝ

/-- Modelled from the spec: the validity predicate of §3/§4.1 —
spot > 0, strike > 0, days ≥ 1, volatility ≥ 0. -/
def validParams (S K : ℝ) (days : ℤ) (vol : ℝ) : Prop :=
  0 < S ∧ 0 < K ∧ 1 ≤ days ∧ 0 ≤ vol

/-- Modelled from the spec: derived quantity
`time_to_maturity_years = time_to_maturity_days / 365.0` (spec §3). -/
noncomputable def yearsToMaturity (p : PricingParameters) : ℝ :=
  (p.time_to_maturity_days : ℝ) / 365

/-- Modelled from the spec: Φ, the standard normal cumulative distribution
function (spec §4.1).  The embedding uses the exact CDF
`Φ(x) = (∫ t ≤ x, e^(−t²/2)) / √(2π)`, which satisfies any absolute
accuracy bound, in particular the 1e-9 the spec demands. -/
noncomputable def stdNormalCdf (x : ℝ) : ℝ :=
  (∫ t in Iic x, Real.exp (-t ^ 2 / 2)) / Real.sqrt (2 * Real.pi)

/-- Modelled from the spec: `BlackScholesModel` (spec §4.1), constructed
from validated `PricingParameters`. -/
structure BlackScholesModel where
  params : PricingParameters

open Classical in
/-- Modelled from the spec: `BlackScholesModel` construction — validates
spot>0, strike>0, days≥1, volatility≥0, else fails with
`InvalidParameter`; inputs are stored exactly, never clamped (spec §4.1,
§7). -/
noncomputable def BlackScholesModel.create (S K : ℝ) (days : ℤ) (r vol : ℝ) :
    Except PricingError BlackScholesModel :=
  if validParams S K days vol then
    .ok ⟨⟨S, K, days, r, vol⟩⟩
  else
    .error .InvalidParameter

open Classical in
/-- Modelled from the spec: `BlackScholesModel.calculate_option_price`
(spec §4.1).  Edge policy first: if σ = 0 or T = 0 the model
short-circuits to the discounted intrinsic value; otherwise it evaluates
the closed-form Black-Scholes formula with d1, d2 as in the spec. -/
noncomputable def BlackScholesModel.calculate_option_price
    (m : BlackScholesModel) (k : OptionKind) : ℝ :=
  let S := m.params.spot_price
  let K := m.params.strike_price
  let T := yearsToMaturity m.params
  let r := m.params.risk_free_rate
  let vol := m.params.volatility
  if vol = 0 ∨ T = 0 then
    match k with
    | .Call => max (S - K * Real.exp (-(r * T))) 0
    | .Put => max (K * Real.exp (-(r * T)) - S) 0
  else
    let d1 := (Real.log (S / K) + (r + vol ^ 2 / 2) * T) / (vol * Real.sqrt T)
    let d2 := d1 - vol * Real.sqrt T
    match k with
    | .Call => S * stdNormalCdf d1 - K * Real.exp (-(r * T)) * stdNormalCdf d2
    | .Put => K * Real.exp (-(r * T)) * stdNormalCdf (-d2) - S * stdNormalCdf (-d1)

/-- The Black-Scholes value exactly as the claim words it: with
d1 = (ln(S/K) + (r + σ²/2)·T) / (σ·√T) and d2 = d1 − σ·√T, the Call price
is S·Φ(d1) − K·e^(−rT)·Φ(d2) and the Put price is
K·e^(−rT)·Φ(−d2) − S·Φ(−d1).  Stated separately from the model so the
model's output can be compared against it. -/
noncomputable def blackScholesSpecPrice (S K T r vol : ℝ) (k : OptionKind) : ℝ :=
  let d1 := (Real.log (S / K) + (r + vol ^ 2 / 2) * T) / (vol * Real.sqrt T)
  let d2 := d1 - vol * Real.sqrt T
  match k with
  | .Call => S * stdNormalCdf d1 - K * Real.exp (-(r * T)) * stdNormalCdf d2
  | .Put => K * Real.exp (-(r * T)) * stdNormalCdf (-d2) - S * stdNormalCdf (-d1)

/-- Modelled from the spec: the seeded random-number source of §4.2/§9.
The spec requires only an injectable, seedable source of standard-normal
draws whose output is a deterministic function of the seed (fixed seed ⇒
bit-reproducible output); the concrete generator is unspecified, so the
embedding fixes an arbitrary deterministic seeded stream, indexed by path
number and step number. -/
noncomputable def normalVariate (seed i j : ℕ) : ℝ :=
  ((((seed + 1) * (2 * i + 3) * (5 * j + 7)) % 1009 : ℕ) : ℝ) / 1009 - 1 / 2

/-- Modelled from the spec: one geometric-Brownian-motion update step
(spec §4.2): `S_{t+Δt} = S_t · exp((r − σ²/2)·Δt + σ·√Δt·Z)`. -/
noncomputable def gbmStep (r vol dt s z : ℝ) : ℝ :=
  s * Real.exp ((r - vol ^ 2 / 2) * dt + vol * Real.sqrt dt * z)

/-- Modelled from the spec: a simulated price path — starts at the spot
price and applies one GBM update per drawn variate (spec §4.2). -/
noncomputable def generatePath (spot r vol dt : ℝ) (zs : List ℝ) : List ℝ :=
  zs.scanl (fun s z => gbmStep r vol dt s z) spot

/-- Modelled from the spec: `MonteCarloPricing` (spec §4.2) — parameters,
simulation count, seed, and the cached `SimulationRun` (an ordered
sequence of paths), `none` until `simulate_prices` has run. -/
structure MonteCarloPricing where
  params : PricingParameters
  number_of_simulations : ℕ
  seed : ℕ
  run : Option (List (List ℝ))

/-- Modelled from the spec: the Monte-Carlo time-step count.  The spec
(§4.2, §9) leaves the granularity open and names one reasonable default —
one interval per day to maturity — which the embedding adopts. -/
def MonteCarloPricing.number_of_time_steps (m : MonteCarloPricing) : ℕ :=
  m.params.time_to_maturity_days.toNat

open Classical in
/-- Modelled from the spec: `MonteCarloPricing` construction — validates
the shared parameters plus `number_of_simulations > 0` (spec §4.2, §7);
no simulation has run yet. -/
noncomputable def MonteCarloPricing.create (S K : ℝ) (days : ℤ) (r vol : ℝ)
    (nsims seed : ℕ) : Except PricingError MonteCarloPricing :=
  if validParams S K days vol ∧ 0 < nsims then
    .ok ⟨⟨S, K, days, r, vol⟩, nsims, seed, none⟩
  else
    .error .InvalidParameter

/-- Modelled from the spec: the full `SimulationRun` generated by
`simulate_prices` — `number_of_simulations` paths, each built from
`number_of_time_steps` seeded draws (spec §4.2, §3). -/
noncomputable def simulatedRun (p : PricingParameters) (nsims seed : ℕ) :
    List (List ℝ) :=
  let steps := p.time_to_maturity_days.toNat
  let dt := yearsToMaturity p / (steps : ℝ)
  (List.range nsims).map (fun i =>
    generatePath p.spot_price p.risk_free_rate p.volatility dt
      ((List.range steps).map (fun j => normalVariate seed i j)))

/-- Modelled from the spec: `simulate_prices` — generates all paths,
overwriting any prior `SimulationRun` wholesale (spec §4.2, §3). -/
noncomputable def MonteCarloPricing.simulate_prices (m : MonteCarloPricing) :
    MonteCarloPricing :=
  { m with run := some (simulatedRun m.params m.number_of_simulations m.seed) }

/-- Modelled from the spec: the discounted sample-mean payoff over the
terminal prices of a run (spec §4.2):
Call ≈ e^(−rT)·mean(max(S_T − K, 0)), Put ≈ e^(−rT)·mean(max(K − S_T, 0)). -/
noncomputable def discountedMeanPayoff (p : PricingParameters)
    (k : OptionKind) (run : List (List ℝ)) : ℝ :=
  let payoffs := run.map (fun path =>
    let sT := path.getLastD 0
    match k with
    | .Call => max (sT - p.strike_price) 0
    | .Put => max (p.strike_price - sT) 0)
  Real.exp (-(p.risk_free_rate * yearsToMaturity p)) *
    (payoffs.sum / (payoffs.length : ℝ))

/-- Modelled from the spec: `MonteCarloPricing.calculate_option_price` —
fails with `NotSimulated` when no `SimulationRun` is stored, otherwise
prices from the stored run (spec §4.2, §7).  The method is embedded in
state-passing style (result together with the post-state) so that absence
of mutation is itself provable. -/
noncomputable def MonteCarloPricing.calculate_option_price
    (m : MonteCarloPricing) (k : OptionKind) :
    Except PricingError ℝ × MonteCarloPricing :=
  match m.run with
  | none => (.error .NotSimulated, m)
  | some run => (.ok (discountedMeanPayoff m.params k run), m)

/-- Modelled from the spec: `plot_simulation_results(count)` — exposes the
first `count` paths of the stored run (all of them when `count` exceeds
the run size, none when `count ≤ 0`) without mutating the run
(spec §4.2). -/
noncomputable def MonteCarloPricing.plot_simulation_results
    (m : MonteCarloPricing) (count : ℤ) :
    Except PricingError (List (List ℝ)) × MonteCarloPricing :=
  match m.run with
  | none => (.error .NotSimulated, m)
  | some run => (.ok (run.take count.toNat), m)

/-- The application's Monte-Carlo flow, embedded from
`src/streamlit_app.py` lines 240–246: construct `MonteCarloPricing`, call
`simulate_prices` once, then compute the Call price and the Put price
from the same instance. -/
noncomputable def appMonteCarloFlow (S K : ℝ) (days : ℤ) (r vol : ℝ)
    (nsims seed : ℕ) : Except PricingError (ℝ × ℝ) :=
  match MonteCarloPricing.create S K days r vol nsims seed with
  | .error e => .error e
  | .ok mc0 =>
    let mc := mc0.simulate_prices
    match (mc.calculate_option_price .Call).1, (mc.calculate_option_price .Put).1 with
    | .ok c, .ok q => .ok (c, q)
    | .error e, _ => .error e
    | _, .error e => .error e

/-- From `src/streamlit_app.py` lines 138 and 343: the first argument the
application passes to `calculate_option_price` for a call option — the
string literal "Call Option". -/
def appCallOptionArgument : String := "Call Option"

/-- From `src/streamlit_app.py` lines 139 and 344: the argument the
application passes to `calculate_option_price` for a put option — the
string literal "Put Option". -/
def appPutOptionArgument : String := "Put Option"

/-- Modelled from the spec: `BinomialTreeModel` (spec §4.3) — parameters
plus the lattice step count. -/
structure BinomialTreeModel where
  params : PricingParameters
  number_of_time_steps : ℕ

open Classical in
/-- Modelled from the spec: `BinomialTreeModel` construction — validates
the shared parameters plus `number_of_time_steps > 0` (spec §4.3, §7). -/
noncomputable def BinomialTreeModel.create (S K : ℝ) (days : ℤ) (r vol : ℝ)
    (steps : ℕ) : Except PricingError BinomialTreeModel :=
  if validParams S K days vol ∧ 0 < steps then
    .ok ⟨⟨S, K, days, r, vol⟩, steps⟩
  else
    .error .InvalidParameter

/-- Modelled from the spec: Δt = T / steps (spec §4.3). -/
noncomputable def BinomialTreeModel.dt (m : BinomialTreeModel) : ℝ :=
  yearsToMaturity m.params / (m.number_of_time_steps : ℝ)

/-- Modelled from the spec: the up factor u = exp(σ·√Δt) (spec §4.3). -/
noncomputable def BinomialTreeModel.u (m : BinomialTreeModel) : ℝ :=
  Real.exp (m.params.volatility * Real.sqrt m.dt)

/-- Modelled from the spec: the down factor d = 1/u (spec §4.3). -/
noncomputable def BinomialTreeModel.d (m : BinomialTreeModel) : ℝ :=
  1 / m.u

/-- Modelled from the spec: the risk-neutral up-probability
p = (exp(r·Δt) − d) / (u − d) (spec §4.3). -/
noncomputable def BinomialTreeModel.p (m : BinomialTreeModel) : ℝ :=
  (Real.exp (m.params.risk_free_rate * m.dt) - m.d) / (m.u - m.d)

/-- Modelled from the spec: the terminal lattice price at node i,
computed in log space — `S·exp(i·ln(u) + (steps−i)·ln(d))` — exactly as
the spec's numerical-stability note prescribes (spec §4.3). -/
noncomputable def BinomialTreeModel.terminalPrice (m : BinomialTreeModel)
    (i : ℕ) : ℝ :=
  m.params.spot_price *
    Real.exp ((i : ℝ) * Real.log m.u +
      ((m.number_of_time_steps - i : ℕ) : ℝ) * Real.log m.d)

/-- Modelled from the spec: the terminal payoff — max(price−K, 0) for a
Call, max(K−price, 0) for a Put (spec §4.3). -/
noncomputable def optionPayoff (K : ℝ) (k : OptionKind) (s : ℝ) : ℝ :=
  match k with
  | .Call => max (s - K) 0
  | .Put => max (K - s) 0

/-- Modelled from the spec: one backward-induction sweep over the reused
node-value array — the new V[i] is e^(−r·Δt)·(p·V[i+1] + (1−p)·V[i]),
shortening the array by one (spec §4.3, §3 "Lattice state"). -/
noncomputable def backStep (disc p : ℝ) : List ℝ → List ℝ
  | a :: b :: rest => (disc * (p * b + (1 - p) * a)) :: backStep disc p (b :: rest)
  | _ => []

open Classical in
/-- Modelled from the spec: `BinomialTreeModel.calculate_option_price` —
fails with `InvalidParameter` when the risk-neutral probability p lies
outside [0,1]; otherwise fills the terminal layer with payoffs and runs
`steps` backward-induction sweeps, returning the remaining node V[0]
(spec §4.3, §7). -/
noncomputable def BinomialTreeModel.calculate_option_price
    (m : BinomialTreeModel) (k : OptionKind) : Except PricingError ℝ :=
  if m.p < 0 ∨ 1 < m.p then
    .error .InvalidParameter
  else
    let disc := Real.exp (-(m.params.risk_free_rate * m.dt))
    let terminal := (List.range (m.number_of_time_steps + 1)).map
      (fun i => optionPayoff m.params.strike_price k (m.terminalPrice i))
    .ok (((backStep disc m.p)^[m.number_of_time_steps] terminal).headD 0)

/-- The backward-induction recurrence exactly as the claim words it,
as a recursive node value: with `n` layers remaining, the node value at
index i is the terminal payoff when n = 0 and otherwise
e^(−r·Δt)·(p·V[i+1] + (1−p)·V[i]) over the values one layer closer to
maturity.  Stated separately from the model's array sweep so the sweep
can be proved to implement it. -/
noncomputable def nodeValue (disc p : ℝ) (payoffAt : ℕ → ℝ) : ℕ → ℕ → ℝ
  | 0, i => payoffAt i
  | n + 1, i =>
    disc * (p * nodeValue disc p payoffAt n (i + 1) +
      (1 - p) * nodeValue disc p payoffAt n i)

/-- The standard normal density (up to the 1/√(2π) factor) is integrable
over ℝ. -/
theorem gaussianKernel_integrable :
    Integrable (fun t : ℝ => Real.exp (-t ^ 2 / 2)) := by
  have h := integrable_exp_neg_mul_sq (show (0 : ℝ) < 1 / 2 by norm_num)
  have e : (fun t : ℝ => Real.exp (-t ^ 2 / 2)) =
      fun t : ℝ => Real.exp (-(1 / 2) * t ^ 2) := by
    funext t
    congr 1
    ring
  rw [e]
  exact h

/-- The total Gaussian integral: ∫ e^(−t²/2) dt = √(2π). -/
theorem gaussianKernel_total :
    (∫ t : ℝ, Real.exp (-t ^ 2 / 2)) = Real.sqrt (2 * Real.pi) := by
  have h := integral_gaussian (1 / 2 : ℝ)
  have e : (fun t : ℝ => Real.exp (-t ^ 2 / 2)) =
      fun t : ℝ => Real.exp (-(1 / 2) * t ^ 2) := by
    funext t
    congr 1
    ring
  rw [e]
  rw [h]
  congr 1
  rw [div_div_eq_mul_div, div_one, mul_comm]

/-- Reflection identity of the exact standard normal CDF:
Φ(x) + Φ(−x) = 1. -/
theorem stdNormalCdf_add_neg (x : ℝ) :
    stdNormalCdf x + stdNormalCdf (-x) = 1 := by
  have hint := gaussianKernel_integrable
  have h1 : (∫ t in Iic (-x), Real.exp (-t ^ 2 / 2)) =
      ∫ t in Ioi x, Real.exp (-t ^ 2 / 2) := by
    have h := integral_comp_neg_Iic (-x) (fun t => Real.exp (-t ^ 2 / 2))
    simp only [neg_neg, neg_sq] at h
    exact h
  have h2 : (∫ t in Iic x, Real.exp (-t ^ 2 / 2)) +
      (∫ t in Ioi x, Real.exp (-t ^ 2 / 2)) =
      ∫ t : ℝ, Real.exp (-t ^ 2 / 2) :=
    intervalIntegral.integral_Iic_add_Ioi hint.integrableOn hint.integrableOn
  have hpos : (0 : ℝ) < Real.sqrt (2 * Real.pi) :=
    Real.sqrt_pos.mpr (by positivity)
  unfold stdNormalCdf
  rw [h1, div_add_div_same, h2, gaussianKernel_total, div_self hpos.ne']

/-- The difference of the two intrinsic-value branches collapses to the
forward difference: max(a,0) − max(−a,0) = a. -/
theorem max_sub_max_neg (a : ℝ) : max a 0 - max (-a) 0 = a := by
  rcases le_total a 0 with h | h
  · rw [max_eq_right h, max_eq_left (by linarith)]
    ring
  · rw [max_eq_left h, max_eq_right (by linarith)]
    ring

/-- C1: for every valid parameter set (spot>0, strike>0, days≥1,
volatility>0, hence T>0), `BlackScholesModel.calculate_option_price`
returns the Black-Scholes value: with d1 = (ln(S/K) + (r + σ²/2)·T)/(σ·√T)
and d2 = d1 − σ·√T, the Call price equals S·Φ(d1) − K·e^(−rT)·Φ(d2) and
the Put price equals K·e^(−rT)·Φ(−d2) − S·Φ(−d1), where Φ is the exact
standard normal CDF (absolute error 0 ≤ 1e-9). -/
theorem blackScholes_price_formula (m : BlackScholesModel) (k : OptionKind)
    (hspot : 0 < m.params.spot_price)
    (hstrike : 0 < m.params.strike_price)
    (hdays : 1 ≤ m.params.time_to_maturity_days)
    (hvol : 0 < m.params.volatility) :
    m.calculate_option_price k =
      blackScholesSpecPrice m.params.spot_price m.params.strike_price
        (yearsToMaturity m.params) m.params.risk_free_rate
        m.params.volatility k := by
  have hdpos : (0 : ℝ) < (m.params.time_to_maturity_days : ℝ) := by
    exact_mod_cast lt_of_lt_of_le Int.zero_lt_one hdays
  have hT : yearsToMaturity m.params ≠ 0 :=
    (div_pos hdpos (by norm_num)).ne'
  have hcond : ¬(m.params.volatility = 0 ∨ yearsToMaturity m.params = 0) := by
    push_neg
    exact ⟨hvol.ne', hT⟩
  simp only [BlackScholesModel.calculate_option_price, blackScholesSpecPrice]
  rw [if_neg hcond]

/-- Witness for C1 at S=100, K=100, days=365, r=1/20, σ=1/5. -/
theorem blackScholes_price_formula_witness :
    BlackScholesModel.calculate_option_price ⟨⟨100, 100, 365, 1 / 20, 1 / 5⟩⟩
        OptionKind.Call =
      blackScholesSpecPrice 100 100
        (yearsToMaturity ⟨100, 100, 365, 1 / 20, 1 / 5⟩) (1 / 20) (1 / 5)
        OptionKind.Call :=
  blackScholes_price_formula ⟨⟨100, 100, 365, 1 / 20, 1 / 5⟩⟩ OptionKind.Call
    (by norm_num) (by norm_num) (by norm_num) (by norm_num)

/-- C2: for every parameter set, the Black-Scholes Call price minus the
Put price equals S − K·e^(−rT), within absolute tolerance 1e-6 (here the
difference is exactly zero, in both the analytic branch and the
degenerate intrinsic-value branch). -/
theorem blackScholes_put_call_parity (m : BlackScholesModel) :
    |m.calculate_option_price .Call - m.calculate_option_price .Put -
      (m.params.spot_price - m.params.strike_price *
        Real.exp (-(m.params.risk_free_rate * yearsToMaturity m.params)))| ≤
      1 / 1000000 := by
  have key : m.calculate_option_price .Call - m.calculate_option_price .Put =
      m.params.spot_price - m.params.strike_price *
        Real.exp (-(m.params.risk_free_rate * yearsToMaturity m.params)) := by
    simp only [BlackScholesModel.calculate_option_price]
    split_ifs with h
    · have := max_sub_max_neg (m.params.spot_price - m.params.strike_price *
        Real.exp (-(m.params.risk_free_rate * yearsToMaturity m.params)))
      rw [show -(m.params.spot_price - m.params.strike_price *
        Real.exp (-(m.params.risk_free_rate * yearsToMaturity m.params))) =
        m.params.strike_price *
          Real.exp (-(m.params.risk_free_rate * yearsToMaturity m.params)) -
          m.params.spot_price by ring] at this
      exact this
    · have e1 := stdNormalCdf_add_neg
        ((Real.log (m.params.spot_price / m.params.strike_price) +
          (m.params.risk_free_rate + m.params.volatility ^ 2 / 2) *
            yearsToMaturity m.params) /
          (m.params.volatility * Real.sqrt (yearsToMaturity m.params)))
      have e2 := stdNormalCdf_add_neg
        ((Real.log (m.params.spot_price / m.params.strike_price) +
          (m.params.risk_free_rate + m.params.volatility ^ 2 / 2) *
            yearsToMaturity m.params) /
          (m.params.volatility * Real.sqrt (yearsToMaturity m.params)) -
          m.params.volatility * Real.sqrt (yearsToMaturity m.params))
      linear_combination m.params.spot_price * e1 -
        m.params.strike_price *
          Real.exp (-(m.params.risk_free_rate * yearsToMaturity m.params)) * e2
  rw [key]
  norm_num

/-- C3: whenever σ = 0 or T = 0, `BlackScholesModel.calculate_option_price`
takes the explicit short-circuit branch and returns the discounted
intrinsic value: Call = max(S − K·e^(−rT), 0), Put = max(K·e^(−rT) − S, 0). -/
theorem blackScholes_degenerate_intrinsic (m : BlackScholesModel)
    (k : OptionKind)
    (h : m.params.volatility = 0 ∨ yearsToMaturity m.params = 0) :
    m.calculate_option_price k =
      match k with
      | .Call => max (m.params.spot_price - m.params.strike_price *
          Real.exp (-(m.params.risk_free_rate * yearsToMaturity m.params))) 0
      | .Put => max (m.params.strike_price *
          Real.exp (-(m.params.risk_free_rate * yearsToMaturity m.params)) -
          m.params.spot_price) 0 := by
  simp only [BlackScholesModel.calculate_option_price]
  rw [if_pos h]

/-- Witness for C3 at S=100, K=80, days=365, r=1/20, σ=0. -/
theorem blackScholes_degenerate_intrinsic_witness :
    BlackScholesModel.calculate_option_price ⟨⟨100, 80, 365, 1 / 20, 0⟩⟩
        OptionKind.Call =
      max (100 - 80 *
        Real.exp (-(1 / 20 * yearsToMaturity ⟨100, 80, 365, 1 / 20, 0⟩))) 0 :=
  blackScholes_degenerate_intrinsic ⟨⟨100, 80, 365, 1 / 20, 0⟩⟩
    OptionKind.Call (Or.inl rfl)

/-- Scanning a fold over any variate list starts at the initial value. -/
theorem headD_scanl {α β : Type} (f : α → β → α) (a : α) (l : List β) (d : α) :
    (l.scanl f a).headD d = a := by
  cases l <;> simp [List.scanl_nil, List.scanl_cons]

/-- C4: for every model, construction with strike_price = −5 fails with
`InvalidParameter`; every invalid parameter set (non-positive spot or
strike, days < 1, negative volatility) is rejected at construction; and
successful construction stores the inputs exactly — never clamped. -/
theorem invalid_parameters_rejected :
    (∀ S : ℝ, ∀ days : ℤ, ∀ r vol : ℝ,
      BlackScholesModel.create S (-5) days r vol = .error .InvalidParameter)
    ∧ (∀ S : ℝ, ∀ days : ℤ, ∀ r vol : ℝ, ∀ nsims seed : ℕ,
      MonteCarloPricing.create S (-5) days r vol nsims seed =
        .error .InvalidParameter)
    ∧ (∀ S : ℝ, ∀ days : ℤ, ∀ r vol : ℝ, ∀ steps : ℕ,
      BinomialTreeModel.create S (-5) days r vol steps =
        .error .InvalidParameter)
    ∧ (∀ S K : ℝ, ∀ days : ℤ, ∀ r vol : ℝ, ¬ validParams S K days vol →
      BlackScholesModel.create S K days r vol = .error .InvalidParameter
      ∧ (∀ nsims seed : ℕ,
        MonteCarloPricing.create S K days r vol nsims seed =
          .error .InvalidParameter)
      ∧ (∀ steps : ℕ,
        BinomialTreeModel.create S K days r vol steps =
          .error .InvalidParameter))
    ∧ (∀ S K : ℝ, ∀ days : ℤ, ∀ r vol : ℝ, ∀ m,
      BlackScholesModel.create S K days r vol = .ok m →
        m.params = ⟨S, K, days, r, vol⟩ ∧ validParams S K days vol)
    ∧ (∀ S K : ℝ, ∀ days : ℤ, ∀ r vol : ℝ, ∀ nsims seed : ℕ, ∀ m,
      MonteCarloPricing.create S K days r vol nsims seed = .ok m →
        m.params = ⟨S, K, days, r, vol⟩ ∧ validParams S K days vol)
    ∧ (∀ S K : ℝ, ∀ days : ℤ, ∀ r vol : ℝ, ∀ steps : ℕ, ∀ m,
      BinomialTreeModel.create S K days r vol steps = .ok m →
        m.params = ⟨S, K, days, r, vol⟩ ∧ validParams S K days vol) := by
  have hneg5 : ∀ S : ℝ, ∀ days : ℤ, ∀ vol : ℝ,
      ¬ validParams S (-5) days vol := by
    intro S days vol h
    rcases h with ⟨-, h, -, -⟩
    norm_num at h
  refine ⟨?_, ?_, ?_, ?_, ?_, ?_, ?_⟩
  · intro S days r vol
    simp only [BlackScholesModel.create]
    rw [if_neg (hneg5 S days vol)]
  · intro S days r vol nsims seed
    simp only [MonteCarloPricing.create]
    rw [if_neg (fun h => hneg5 S days vol h.1)]
  · intro S days r vol steps
    simp only [BinomialTreeModel.create]
    rw [if_neg (fun h => hneg5 S days vol h.1)]
  · intro S K days r vol hinv
    refine ⟨?_, ?_, ?_⟩
    · simp only [BlackScholesModel.create]
      rw [if_neg hinv]
    · intro nsims seed
      simp only [MonteCarloPricing.create]
      rw [if_neg (fun h => hinv h.1)]
    · intro steps
      simp only [BinomialTreeModel.create]
      rw [if_neg (fun h => hinv h.1)]
  · intro S K days r vol m h
    simp only [BlackScholesModel.create] at h
    split_ifs at h with hv
    · cases h
      exact ⟨rfl, hv⟩
  · intro S K days r vol nsims seed m h
    simp only [MonteCarloPricing.create] at h
    split_ifs at h with hv
    · cases h
      exact ⟨rfl, hv.1⟩
  · intro S K days r vol steps m h
    simp only [BinomialTreeModel.create] at h
    split_ifs at h with hv
    · cases h
      exact ⟨rfl, hv.1⟩

/-- Witness for C4: the Black-Scholes constructor rejects strike −5. -/
theorem invalid_parameters_rejected_witness :
    BlackScholesModel.create 100 (-5) 365 0 0 = .error .InvalidParameter :=
  invalid_parameters_rejected.1 100 365 0 0

/-- C5: calling `MonteCarloPricing.calculate_option_price` with no stored
run fails with `NotSimulated` and leaves the instance unchanged; a freshly
constructed instance has no stored run; and after `simulate_prices` the
price is computed successfully from the stored `SimulationRun`. -/
theorem mc_requires_simulation (m : MonteCarloPricing) (k : OptionKind) :
    (m.run = none →
      m.calculate_option_price k = (.error .NotSimulated, m))
    ∧ (∀ S K : ℝ, ∀ days : ℤ, ∀ r vol : ℝ, ∀ nsims seed : ℕ, ∀ m0,
      MonteCarloPricing.create S K days r vol nsims seed = .ok m0 →
        m0.run = none)
    ∧ m.simulate_prices.calculate_option_price k =
        (.ok (discountedMeanPayoff m.params k
          (simulatedRun m.params m.number_of_simulations m.seed)),
         m.simulate_prices) := by
  refine ⟨?_, ?_, ?_⟩
  · intro h
    simp [MonteCarloPricing.calculate_option_price, h]
  · intro S K days r vol nsims seed m0 h
    simp only [MonteCarloPricing.create] at h
    split_ifs at h
    · cases h
      rfl
  · simp [MonteCarloPricing.simulate_prices,
      MonteCarloPricing.calculate_option_price]

/-- Witness for C5: a fresh instance fails with `NotSimulated`. -/
theorem mc_requires_simulation_witness :
    MonteCarloPricing.calculate_option_price
        ⟨⟨100, 100, 365, 0, 0⟩, 10, 7, none⟩ OptionKind.Call =
      (.error .NotSimulated, ⟨⟨100, 100, 365, 0, 0⟩, 10, 7, none⟩) :=
  (mc_requires_simulation ⟨⟨100, 100, 365, 0, 0⟩, 10, 7, none⟩
    OptionKind.Call).1 rfl

/-- C8: `simulate_prices` stores the freshly generated run wholesale
(independently of any previous run); every path of that run has length
`number_of_time_steps + 1` and starts at the spot price; and neither
`calculate_option_price` nor `plot_simulation_results` changes the
instance. -/
theorem mc_run_invariants (m : MonteCarloPricing) :
    m.simulate_prices.run =
      some (simulatedRun m.params m.number_of_simulations m.seed)
    ∧ (simulatedRun m.params m.number_of_simulations m.seed).Forall
        (fun path => path.length = m.number_of_time_steps + 1
          ∧ path.headD 0 = m.params.spot_price)
    ∧ (∀ k, (m.calculate_option_price k).2 = m)
    ∧ (∀ c, (m.plot_simulation_results c).2 = m) := by
  refine ⟨rfl, ?_, ?_, ?_⟩
  · rw [List.forall_iff_forall_mem]
    intro path hmem
    simp only [simulatedRun, List.mem_map, List.mem_range] at hmem
    obtain ⟨i, -, rfl⟩ := hmem
    constructor
    · simp [generatePath, List.length_scanl, MonteCarloPricing.number_of_time_steps]
    · simp only [generatePath]
      exact headD_scanl _ _ _ _
  · intro k
    cases h : m.run <;>
      simp [MonteCarloPricing.calculate_option_price, h]
  · intro c
    cases h : m.run <;>
      simp [MonteCarloPricing.plot_simulation_results, h]

/-- C9: two Monte-Carlo instances with identical parameters, identical
simulation count and identical seed produce identical SimulationRuns and
identical prices, whatever their previous stored runs were. -/
theorem mc_reproducibility (m1 m2 : MonteCarloPricing) (k : OptionKind)
    (hp : m1.params = m2.params)
    (hn : m1.number_of_simulations = m2.number_of_simulations)
    (hs : m1.seed = m2.seed) :
    m1.simulate_prices.run = m2.simulate_prices.run
    ∧ (m1.simulate_prices.calculate_option_price k).1 =
        (m2.simulate_prices.calculate_option_price k).1 := by
  constructor
  · simp [MonteCarloPricing.simulate_prices, hp, hn, hs]
  · simp [MonteCarloPricing.simulate_prices,
      MonteCarloPricing.calculate_option_price, hp, hn, hs]

/-- Witness for C9: two instances sharing parameters and seed but with
different pre-existing runs still agree. -/
theorem mc_reproducibility_witness :
    (MonteCarloPricing.simulate_prices
        ⟨⟨100, 100, 365, 0, 1 / 5⟩, 10, 7, none⟩).run =
      (MonteCarloPricing.simulate_prices
        ⟨⟨100, 100, 365, 0, 1 / 5⟩, 10, 7, some []⟩).run
    ∧ (MonteCarloPricing.calculate_option_price
        (MonteCarloPricing.simulate_prices
          ⟨⟨100, 100, 365, 0, 1 / 5⟩, 10, 7, none⟩) OptionKind.Call).1 =
      (MonteCarloPricing.calculate_option_price
        (MonteCarloPricing.simulate_prices
          ⟨⟨100, 100, 365, 0, 1 / 5⟩, 10, 7, some []⟩) OptionKind.Call).1 :=
  mc_reproducibility ⟨⟨100, 100, 365, 0, 1 / 5⟩, 10, 7, none⟩
    ⟨⟨100, 100, 365, 0, 1 / 5⟩, 10, 7, some []⟩ OptionKind.Call rfl rfl rfl

/-- C10: in the application's Monte-Carlo flow (construct, simulate once,
price Call then Put on the same instance), the `NotSimulated` error is
unreachable, and on successful construction both displayed prices are
computed from the one shared `SimulationRun`. -/
theorem app_flow_single_shared_run (S K : ℝ) (days : ℤ) (r vol : ℝ)
    (nsims seed : ℕ) :
    appMonteCarloFlow S K days r vol nsims seed ≠
      Except.error PricingError.NotSimulated
    ∧ (∀ m0, MonteCarloPricing.create S K days r vol nsims seed = .ok m0 →
      appMonteCarloFlow S K days r vol nsims seed =
        .ok (discountedMeanPayoff m0.params .Call
              (simulatedRun m0.params nsims seed),
             discountedMeanPayoff m0.params .Put
              (simulatedRun m0.params nsims seed))) := by
  by_cases hc : validParams S K days vol ∧ 0 < nsims
  · have hcreate : MonteCarloPricing.create S K days r vol nsims seed =
        .ok ⟨⟨S, K, days, r, vol⟩, nsims, seed, none⟩ := by
      simp only [MonteCarloPricing.create]
      rw [if_pos hc]
    constructor
    · simp [appMonteCarloFlow, hcreate, MonteCarloPricing.simulate_prices,
        MonteCarloPricing.calculate_option_price]
    · intro m0 hm0
      rw [hcreate] at hm0
      cases hm0
      simp [appMonteCarloFlow, hcreate, MonteCarloPricing.simulate_prices,
        MonteCarloPricing.calculate_option_price]
  · have hcreate : MonteCarloPricing.create S K days r vol nsims seed =
        .error .InvalidParameter := by
      simp only [MonteCarloPricing.create]
      rw [if_neg hc]
    constructor
    · simp [appMonteCarloFlow, hcreate]
    · intro m0 hm0
      rw [hcreate] at hm0
      cases hm0

/-- Witness for C10 at valid inputs S=100, K=100, days=365, r=0, σ=1/5,
one simulation, seed 0. -/
theorem app_flow_single_shared_run_witness :
    appMonteCarloFlow 100 100 365 0 (1 / 5) 1 0 =
      .ok (discountedMeanPayoff ⟨100, 100, 365, 0, 1 / 5⟩ .Call
            (simulatedRun ⟨100, 100, 365, 0, 1 / 5⟩ 1 0),
           discountedMeanPayoff ⟨100, 100, 365, 0, 1 / 5⟩ .Put
            (simulatedRun ⟨100, 100, 365, 0, 1 / 5⟩ 1 0)) :=
  (app_flow_single_shared_run 100 100 365 0 (1 / 5) 1 0).2
    ⟨⟨100, 100, 365, 0, 1 / 5⟩, 1, 0, none⟩
    (by norm_num [MonteCarloPricing.create, validParams])

/-- One backward-induction sweep over node values indexed by consecutive
naturals: every surviving entry combines an entry with its upper
neighbour. -/
theorem backStep_map_range' (disc p : ℝ) (g : ℕ → ℝ) :
    ∀ n a : ℕ,
    backStep disc p ((List.range' a (n + 1)).map g) =
      (List.range' a n).map
        (fun i => disc * (p * g (i + 1) + (1 - p) * g i)) := by
  intro n
  induction n with
  | zero =>
    intro a
    rw [List.range'_one, List.range'_zero]
    simp [backStep]
  | succ n ih =>
    intro a
    rw [List.range'_succ a (n + 1) 1, List.range'_succ (a + 1) n 1,
      List.map_cons, List.map_cons]
    rw [show backStep disc p (g a :: g (a + 1) :: (List.range' (a + 1 + 1) n).map g) =
      (disc * (p * g (a + 1) + (1 - p) * g a)) ::
        backStep disc p (g (a + 1) :: (List.range' (a + 1 + 1) n).map g) from rfl]
    rw [show g (a + 1) :: (List.range' (a + 1 + 1) n).map g =
      (List.range' (a + 1) (n + 1)).map g by
        rw [List.range'_succ (a + 1) n 1, List.map_cons]]
    rw [ih (a + 1)]
    rw [List.range'_succ a n 1, List.map_cons]

/-- After j backward-induction sweeps (j ≤ steps) the node-value array
holds exactly the recurrence values `nodeValue j` at indices
0 .. steps − j. -/
theorem iterate_backStep_eq (disc p : ℝ) (g : ℕ → ℝ) (steps : ℕ) :
    ∀ j : ℕ, j ≤ steps →
    (backStep disc p)^[j] ((List.range (steps + 1)).map g) =
      (List.range (steps - j + 1)).map (fun i => nodeValue disc p g j i) := by
  intro j
  induction j with
  | zero =>
    intro _
    rw [Function.iterate_zero_apply, Nat.sub_zero]
    rfl
  | succ j ih =>
    intro hj
    rw [Function.iterate_succ_apply', ih (Nat.le_of_succ_le hj)]
    have hsub : steps - j + 1 = (steps - (j + 1) + 1) + 1 := by omega
    rw [hsub, List.range_eq_range' (steps - (j + 1) + 1 + 1),
      backStep_map_range' disc p (fun i => nodeValue disc p g j i)
        (steps - (j + 1) + 1) 0,
      ← List.range_eq_range' (steps - (j + 1) + 1)]
    rfl

/-- C6: `BinomialTreeModel.calculate_option_price` fails with
`InvalidParameter` exactly when the risk-neutral probability
p = (exp(r·Δt) − d)/(u − d) falls outside [0,1]; otherwise it returns the
backward-induction value V[0] obtained from the terminal payoffs via
V[i] = e^(−r·Δt)·(p·V[i+1] + (1−p)·V[i]) over steps layers. -/
theorem binomial_backward_induction (m : BinomialTreeModel) (k : OptionKind) :
    ((m.p < 0 ∨ 1 < m.p) →
      m.calculate_option_price k = .error .InvalidParameter)
    ∧ (0 ≤ m.p → m.p ≤ 1 →
      m.calculate_option_price k =
        .ok (nodeValue (Real.exp (-(m.params.risk_free_rate * m.dt))) m.p
          (fun i => optionPayoff m.params.strike_price k (m.terminalPrice i))
          m.number_of_time_steps 0)) := by
  constructor
  · intro h
    simp only [BinomialTreeModel.calculate_option_price]
    rw [if_pos h]
  · intro h0 h1
    have hcond : ¬(m.p < 0 ∨ 1 < m.p) := by
      push_neg
      exact ⟨h0, h1⟩
    simp only [BinomialTreeModel.calculate_option_price]
    rw [if_neg hcond]
    rw [iterate_backStep_eq (Real.exp (-(m.params.risk_free_rate * m.dt))) m.p
      (fun i => optionPayoff m.params.strike_price k (m.terminalPrice i))
      m.number_of_time_steps m.number_of_time_steps (le_refl _)]
    rw [Nat.sub_self]
    rfl

/-- Witness for C6: with σ = 0 and r = 0 the risk-neutral probability
degenerates to 0 ∈ [0,1] and the model prices by backward induction. -/
theorem binomial_backward_induction_witness :
    BinomialTreeModel.calculate_option_price ⟨⟨100, 100, 365, 0, 0⟩, 1⟩
        OptionKind.Call =
      .ok (nodeValue
        (Real.exp (-(0 * BinomialTreeModel.dt ⟨⟨100, 100, 365, 0, 0⟩, 1⟩)))
        (BinomialTreeModel.p ⟨⟨100, 100, 365, 0, 0⟩, 1⟩)
        (fun i => optionPayoff 100 OptionKind.Call
          (BinomialTreeModel.terminalPrice ⟨⟨100, 100, 365, 0, 0⟩, 1⟩ i))
        1 0) :=
  (binomial_backward_induction ⟨⟨100, 100, 365, 0, 0⟩, 1⟩ OptionKind.Call).2
    (by norm_num [BinomialTreeModel.p, BinomialTreeModel.u,
      BinomialTreeModel.d, BinomialTreeModel.dt])
    (by norm_num [BinomialTreeModel.p, BinomialTreeModel.u,
      BinomialTreeModel.d, BinomialTreeModel.dt])

/-- C7 counterexample: the claim that the option-kind argument of
`calculate_option_price` is a closed two-value type through which no other
value can be passed fails on the source as written: at
`src/streamlit_app.py` lines 138/139 and 343/344 the argument is a string,
and the concrete string "Straddle" is a value of that type distinct from
both literals the application passes. -/
theorem optionKind_closed_counterexample :
    ¬ (∀ s : String, s = appCallOptionArgument ∨ s = appPutOptionArgument) := by
  intro h
  rcases h "Straddle" with h1 | h1 <;> exact absurd h1 (by decide)

/-- C7 amended: the spec's `OptionKind` is a closed variant with exactly
the two values Call and Put, but in the source the option-kind argument is
a string: the application passes the two distinct literals "Call Option"
and "Put Option", and the string type admits further values (such as
"Straddle"), so the closed variant is the spec's design target rather
than a property of the code as written. -/
theorem optionKind_closed_amended :
    (∀ k : OptionKind, k = OptionKind.Call ∨ k = OptionKind.Put)
    ∧ OptionKind.Call ≠ OptionKind.Put
    ∧ appCallOptionArgument ≠ appPutOptionArgument
    ∧ "Straddle" ≠ appCallOptionArgument
    ∧ "Straddle" ≠ appPutOptionArgument := by
  refine ⟨?_, by decide, by decide, by decide, by decide⟩
  intro k
  cases k
  · exact Or.inl rfl
  · exact Or.inr rfl

end OptionPricing
